import Mathlib

/-!
# Verification of the file-manager web application

Shallow embedding of `src/main.py`, a FastAPI application that uploads,
previews, edits and deletes documents stored in a single uploads folder.

* Strings stand for both decoded text and raw file bytes (every text the
  claims touch is valid UTF-8, and `open(..., errors="ignore")` is the
  identity on such inputs).
* The external parsing libraries (PyMuPDF's `fitz` and `python-docx`, plus
  `zipfile`) are modelled by an ambient `Interp` record of oracle
  functions: each maps the file's bytes either to its parsed structure or
  to the description of the exception it raises.
* The uploads folder is a `Storage` value: an association list of files
  (name, bytes) plus a list of `_images` sub-folders with the image names
  they contain.  `os.listdir` is modelled by `listing` (sorted names of
  files and sub-folders).
* Python string operations are modelled character-exactly for ASCII:
  `str.strip` is `pyStrip`, `"sep".join` is `joinSep`, and
  `re.sub(r'\n\s*\n+', '\n\n', s)` is `pyCollapse` (see there).
  Non-ASCII whitespace is outside the model.
-/

namespace FileManager

/-- ASCII whitespace, as recognised by Python's `str.strip` and by the
regex class `\s`: space, tab, newline, carriage return, vertical tab,
form feed.  (Python additionally treats some non-ASCII characters as
whitespace; those are outside this model.) -/
def isPyWs (c : Char) : Bool :=
  c == ' ' || c == '\t' || c == '\n' || c == '\r' ||
    c == Char.ofNat 11 || c == Char.ofNat 12

/-- `str.strip()` on a character list: drop whitespace from both ends. -/
def pyStripL (l : List Char) : List Char :=
  ((l.dropWhile isPyWs).reverse.dropWhile isPyWs).reverse

/-- Python `s.strip()`. -/
def pyStrip (s : String) : String := ⟨pyStripL s.data⟩

/-- Python `sep.join(parts)`. -/
def joinSep (sep : String) : List String → String
  | [] => ""
  | [a] => a
  | a :: rest => a ++ sep ++ joinSep sep rest

/-- Split `l` as `pre ++ '\n' :: post` where `post` contains no newline;
`none` when `l` contains no newline.  Auxiliary for `collapseGo`: a match
of `\n\s*\n+` extends exactly to the last newline of the whitespace run
it starts in. -/
def splitLastNl : List Char → Option (List Char × List Char)
  | [] => none
  | c :: rest =>
    match splitLastNl rest with
    | some (pre, post) => some (c :: pre, post)
    | none => if c = '\n' then some ([], rest) else none

/-- One pass of `re.sub(r'\n\s*\n+', '\n\n', ·)`, fuelled (the fuel is
only a termination device; `pyCollapse` supplies `l.length`, which is
enough because every step consumes at least one character).

Semantics of the regex being modelled: a match must start at a newline.
With `\s*` greedy and the subsequent backtracking for `\n+`, a match
starting at a newline exists exactly when the maximal whitespace run
beginning there contains a second newline, and the match then extends to
the *last* newline of that run.  `re.sub` replaces the match by `"\n\n"`
and resumes scanning right after it, i.e. at the run's trailing
newline-free whitespace (`post` below); since no match can start at a
non-newline character, that whitespace is copied verbatim, which is what
the `some` branch does before recursing on the rest of the run. -/
def collapseGo : Nat → List Char → List Char
  | 0, l => l
  | _ + 1, [] => []
  | f + 1, c :: rest =>
    if c = '\n' then
      match splitLastNl (rest.takeWhile isPyWs) with
      | none => c :: collapseGo f rest
      | some (_, post) => '\n' :: '\n' :: (post ++ collapseGo f (rest.dropWhile isPyWs))
    else c :: collapseGo f rest

/-- `re.sub(r'\n\s*\n+', '\n\n', s)` from `view_file` line 90. -/
def pyCollapse (s : String) : String := ⟨collapseGo s.data.length s.data⟩

/-- Python `s.split(sep)` for a one-character separator, on character
lists. -/
def splitOnChar (sep : Char) : List Char → List (List Char)
  | [] => [[]]
  | c :: rest =>
    match splitOnChar sep rest with
    | [] => if c = sep then [[], [c]] else [[c]]
    | h :: t => if c = sep then [] :: h :: t else (c :: h) :: t

/-- `filename.split(".")[-1].lower()` — the declared extension
(`str.lower` is modelled for ASCII via `Char.toLower`). -/
def extOf (filename : String) : String :=
  String.mk (((splitOnChar '.' filename.data).getLastD []).map Char.toLower)

/-- Modelled from Python's `os.path.splitext` (no directory separators
occur in the route's filenames): the extension begins at the last dot,
except that when every character before that dot is itself a dot there is
no extension.  Returns the root, i.e. `os.path.splitext(p)[0]`. -/
def splitextBase (p : String) : String :=
  let l := p.data
  let i := l.length - 1 - (l.reverse.findIdx (fun c => c == '.'))
  if (l.take i).any (fun c => c != '.') then ⟨l.take i⟩ else p

/-- `os.path.basename` for zip entry names (forward slashes only). -/
def baseName (p : String) : String :=
  String.mk ((splitOnChar '/' p.data).getLastD p.data)

/-- The uploads folder: uploaded files (name, bytes) and the `_images`
sub-folders together with the image file names each contains. -/
structure Storage where
  files : List (String × String)
  dirs : List (String × List String)
deriving DecidableEq

/-- Read a named file's bytes, `none` when absent (`os.path.exists`). -/
def lookupFile (st : Storage) (n : String) : Option String :=
  (st.files.find? (fun p => p.1 == n)).map (·.2)

/-- Create-or-overwrite a named file (`open(path, "w")`/upload copy). -/
def writeFile (st : Storage) (n c : String) : Storage :=
  ⟨(n, c) :: st.files.filter (fun p => p.1 != n), st.dirs⟩

/-- `os.remove`. -/
def removeFile (st : Storage) (n : String) : Storage :=
  ⟨st.files.filter (fun p => p.1 != n), st.dirs⟩

/-- Does the named sub-folder exist? -/
def hasDir (st : Storage) (n : String) : Bool :=
  st.dirs.any (fun p => p.1 == n)

/-- `os.makedirs(n, exist_ok=True)`. -/
def mkdirIfAbsent (st : Storage) (n : String) : Storage :=
  if hasDir st n then st else ⟨st.files, (n, []) :: st.dirs⟩

/-- `shutil.rmtree`. -/
def removeDir (st : Storage) (n : String) : Storage :=
  ⟨st.files, st.dirs.filter (fun p => p.1 != n)⟩

/-- Write an image file into a sub-folder (overwriting is recorded as
set-like insertion of its name). -/
def addImage (st : Storage) (d img : String) : Storage :=
  ⟨st.files,
   st.dirs.map (fun p =>
     if p.1 == d then (p.1, if p.2.contains img then p.2 else img :: p.2) else p)⟩

/-- Lexicographic comparison by code point, as Python compares `str`. -/
def leChars : List Char → List Char → Bool
  | [], _ => true
  | _ :: _, [] => false
  | a :: as, b :: bs => if a = b then leChars as bs else decide (a < b)

/-- Insertion into a lexicographically sorted list of names. -/
def insertSorted (x : String) : List String → List String
  | [] => [x]
  | y :: ys => if leChars x.data y.data then x :: y :: ys else y :: insertSorted x ys

/-- `sorted(...)`. -/
def sortStrings (l : List String) : List String := l.foldr insertSorted []

/-- `sorted(os.listdir(UPLOAD_DIR))` — the home-page file list: every
file and every sub-folder of the uploads directory, sorted. -/
def listing (st : Storage) : List String :=
  sortStrings (st.files.map (·.1) ++ st.dirs.map (·.1))

/-- The external parsing libraries, as oracles on the file's bytes.
`pdfOf` is `fitz.open` + per-page `get_text("text")` (the page texts, in
order); `docxDocOf` is `python-docx`'s `Document` (the paragraph texts,
in order); `docxZipOf` is `zipfile.ZipFile` + `namelist`/`read` (entry
name and bytes pairs).  An `Except.error e` value models the library
raising an exception whose string form is `e`. -/
structure Interp where
  pdfOf : String → Except String (List String)
  docxDocOf : String → Except String (List String)
  docxZipOf : String → Except String (List (String × String))

/-- `view_file` lines 56–63: per page, keep `text.strip()` when
non-empty, then join with a blank line. -/
def viewPdfExtract (pages : List String) : String :=
  joinSep "\n\n" (pages.filterMap (fun t =>
    if pyStrip t = "" then none else some (pyStrip t)))

/-- `download_text` lines 121–124: join *all* raw page texts with a blank
line, then strip the result. -/
def dlPdfExtract (pages : List String) : String :=
  pyStrip (joinSep "\n\n" pages)

/-- `view_file` lines 66–68: trimmed paragraphs, empty ones skipped,
joined with newlines. -/
def viewDocxExtract (paras : List String) : String :=
  joinSep "\n" (paras.filterMap (fun p =>
    if pyStrip p = "" then none else some (pyStrip p)))

/-- `download_text` lines 126–128: paragraphs whose trimmed text is
non-empty, kept *untrimmed*, joined with newlines. -/
def dlDocxExtract (paras : List String) : String :=
  joinSep "\n" (paras.filter (fun p => pyStrip p != ""))

/-- `view_file` line 90: `re.sub(r'\n\s*\n+', '\n\n', content.strip())`. -/
def viewPostProcess (content : String) : String := pyCollapse (pyStrip content)

/-- `view_file` lines 95–96: the final placeholder substitution. -/
def finalizeContent (content : String) (images : List String) : String :=
  if pyStrip content = "" ∧ images = [] then "[No readable content found.]" else content

/-- A 303 redirect (`RedirectResponse`). -/
structure Redirect where
  url : String
  status : Nat
deriving DecidableEq

/-- Responses of `view_file`: a redirect or the rendered `view.html`. -/
inductive ViewResponse where
  | redirect (url : String) (status : Nat)
  | page (filename : String) (content : String) (images : List String)
deriving DecidableEq

/-- Responses of `download_text`: status, body and the optional
`Content-Disposition` header. -/
structure DlResponse where
  status : Nat
  body : String
  contentDisposition : Option String
deriving DecidableEq

/-- The media filter of `view_file` lines 74–77:
`file.startswith("word/media/")` and an image-suffix check. -/
def isMediaImage (name : String) : Bool :=
  "word/media/".data.isPrefixOf name.data &&
    (".png".data.reverse.isPrefixOf name.data.reverse ||
     ".jpg".data.reverse.isPrefixOf name.data.reverse ||
     ".jpeg".data.reverse.isPrefixOf name.data.reverse ||
     ".gif".data.reverse.isPrefixOf name.data.reverse)

/-- `f"{filename}_images"`. -/
def imgDirName (filename : String) : String := filename ++ "_images"

/-- `view_file` lines 73–82: scan the zip entries, copy each matching
media entry into the image folder and record its servable path. -/
def extractImages (st : Storage) (filename : String)
    (entries : List (String × String)) : Storage × List String :=
  entries.foldl (fun acc entry =>
    if isMediaImage entry.1 then
      (addImage acc.1 (imgDirName filename) (baseName entry.1),
       acc.2 ++ ["/uploads/" ++ imgDirName filename ++ "/" ++ baseName entry.1])
    else acc) (st, [])

/-- `GET /` (lines 24–28): the sorted file list rendered on the homepage. -/
def home (st : Storage) : List String := listing st

/-- `POST /upload` (lines 31–37). -/
def upload_file (st : Storage) (filename bytes : String) : Storage × Redirect :=
  (writeFile st filename bytes, ⟨"/", 303⟩)

/-- `GET /view/{filename}` (lines 40–103).  Returns the possibly changed
storage (docx image extraction writes into it) and the response.  The
error branches reproduce the `except` handler at lines 92–93: the
post-processing of line 90 is *not* applied to the error placeholder,
while the substitution of lines 95–96 is. -/
def view_file (it : Interp) (st : Storage) (filename : String) :
    Storage × ViewResponse :=
  match lookupFile st filename with
  | none => (st, .redirect "/" 303)
  | some bytes =>
    if extOf filename = "txt" then
      (st, .page filename (finalizeContent (viewPostProcess bytes) []) [])
    else if extOf filename = "pdf" then
      match it.pdfOf bytes with
      | .error e =>
        (st, .page filename (finalizeContent ("[Error reading file: " ++ e ++ "]") []) [])
      | .ok pages =>
        (st, .page filename (finalizeContent (viewPostProcess (viewPdfExtract pages)) []) [])
    else if extOf filename = "docx" then
      match it.docxDocOf bytes with
      | .error e =>
        (st, .page filename (finalizeContent ("[Error reading file: " ++ e ++ "]") []) [])
      | .ok paras =>
        let content0 := viewDocxExtract paras
        let st1 := mkdirIfAbsent st (imgDirName filename)
        match it.docxZipOf bytes with
        | .error e =>
          (st1, .page filename (finalizeContent ("[Error reading file: " ++ e ++ "]") []) [])
        | .ok entries =>
          let res := extractImages st1 filename entries
          let content1 :=
            if pyStrip content0 = "" ∧ res.2 = [] then
              "[This DOCX file appears empty or unsupported.]"
            else content0
          (res.1, .page filename (finalizeContent (viewPostProcess content1) res.2) res.2)
    else
      (st, .page filename
        (finalizeContent (viewPostProcess "[Unsupported file format for preview.]") []) [])

/-- The per-extension extraction of `download_text` (lines 116–131):
`none` for an unsupported extension, `Except.error` when the parsing
library raises. -/
def dlExtract (it : Interp) (ext bytes : String) : Option (Except String String) :=
  if ext = "txt" then some (.ok bytes)
  else if ext = "pdf" then some ((it.pdfOf bytes).map dlPdfExtract)
  else if ext = "docx" then some ((it.docxDocOf bytes).map dlDocxExtract)
  else none

/-- `GET /download_text/{filename}` (lines 106–143). -/
def download_text (it : Interp) (st : Storage) (filename : String) : DlResponse :=
  match lookupFile st filename with
  | none => ⟨404, "File not found", none⟩
  | some bytes =>
    match dlExtract it (extOf filename) bytes with
    | none => ⟨400, "Unsupported file type", none⟩
    | some (.error e) => ⟨500, "Error extracting text: " ++ e, none⟩
    | some (.ok content) =>
      if pyStrip content = "" then ⟨204, "No readable text found.", none⟩
      else
        ⟨200, content,
         some ("attachment; filename=\"" ++ splitextBase filename ++ "_extracted.txt\"")⟩

/-- `POST /update/{filename}` (lines 146–158). -/
def update_file (st : Storage) (filename new_content : String) : Storage × Redirect :=
  if extOf filename = "txt" then
    (writeFile st filename (pyStrip new_content), ⟨"/", 303⟩)
  else (st, ⟨"/", 303⟩)

/-- `GET /delete/{filename}` (lines 161–173). -/
def delete_file (st : Storage) (filename : String) : Storage × Redirect :=
  let st1 := if (lookupFile st filename).isSome then removeFile st filename else st
  let st2 := if hasDir st1 (imgDirName filename) then removeDir st1 (imgDirName filename) else st1
  (st2, ⟨"/", 303⟩)

/-- All-whitespace line (Python: a line that `strip`s to empty). -/
def blankLine (s : String) : Bool := s.data.all isPyWs

/-- No two consecutive blank lines in a list of lines. -/
def noTwoAdjacentBlank : List String → Bool
  | a :: b :: rest => !(blankLine a && blankLine b) && noTwoAdjacentBlank (b :: rest)
  | _ => true

/-- The empty uploads folder. -/
def emptyStorage : Storage := ⟨[], []⟩

/-- An interpretation whose parsers are never consulted. -/
def trivialInterp : Interp :=
  ⟨fun _ => .error "unused", fun _ => .error "unused", fun _ => .error "unused"⟩

/-- An interpretation whose parsers all raise. -/
def errInterp : Interp :=
  ⟨fun _ => .error "boom", fun _ => .error "boom", fun _ => .error "boom"⟩

/-- An interpretation for a docx with one paragraph and no zip entries. -/
def okDocxInterp : Interp :=
  ⟨fun _ => .error "nope", fun _ => .ok ["hi"], fun _ => .ok []⟩

/-- A storage holding one pdf file. -/
def pdfStorage : Storage := ⟨[("f.pdf", "x")], []⟩

/-- A storage holding one docx file. -/
def docxStorage : Storage := ⟨[("d.docx", "y")], []⟩

/-! ## Helper lemmas -/

theorem mem_insertSorted (x y : String) (l : List String) :
    x ∈ insertSorted y l ↔ x = y ∨ x ∈ l := by
  induction l with
  | nil => simp [insertSorted]
  | cons a t ih =>
    by_cases h : leChars y.data a.data = true
    · simp [insertSorted, h]
    · rw [Bool.not_eq_true] at h
      simp only [insertSorted, h, Bool.false_eq_true, if_false, List.mem_cons, ih]
      tauto

theorem mem_sortStrings (x : String) (l : List String) :
    x ∈ sortStrings l ↔ x ∈ l := by
  induction l with
  | nil => simp [sortStrings]
  | cons a t ih =>
    show x ∈ insertSorted a (sortStrings t) ↔ _
    rw [mem_insertSorted, ih]
    simp

theorem length_dropWhile_le' (p : α → Bool) (l : List α) :
    (l.dropWhile p).length ≤ l.length := by
  induction l with
  | nil => simp
  | cons c t ih =>
    rw [List.dropWhile_cons]
    split
    · exact Nat.le_trans ih (Nat.le_succ _)
    · exact Nat.le_refl _

theorem dropWhile_eq_self_of_length (p : α → Bool) (l : List α)
    (h : (l.dropWhile p).length = l.length) : l.dropWhile p = l := by
  cases l with
  | nil => simp
  | cons c t =>
    rw [List.dropWhile_cons] at h ⊢
    split at h
    · exact absurd h (Nat.ne_of_lt (Nat.lt_succ_of_le (length_dropWhile_le' p t)))
    · simp_all

theorem head_false_of_dropWhile_self (p : α → Bool) (c : α) (cs : List α)
    (h : (c :: cs).dropWhile p = c :: cs) : p c = false := by
  rw [List.dropWhile_cons] at h
  by_cases hc : p c
  · rw [if_pos hc] at h
    have := length_dropWhile_le' p cs
    rw [h] at this
    simp at this
  · simpa using hc

theorem length_pyStripL_le (l : List Char) : (pyStripL l).length ≤ l.length := by
  unfold pyStripL
  rw [List.length_reverse]
  calc ((l.dropWhile isPyWs).reverse.dropWhile isPyWs).length
      ≤ (l.dropWhile isPyWs).reverse.length := length_dropWhile_le' _ _
    _ = (l.dropWhile isPyWs).length := List.length_reverse _
    _ ≤ l.length := length_dropWhile_le' _ _

theorem pyStripL_id_parts (l : List Char) (h : pyStripL l = l) :
    l.dropWhile isPyWs = l ∧ l.reverse.dropWhile isPyWs = l.reverse := by
  have hlen : (pyStripL l).length = l.length := by rw [h]
  unfold pyStripL at hlen
  rw [List.length_reverse] at hlen
  have h2 : ((l.dropWhile isPyWs).reverse.dropWhile isPyWs).length
      ≤ (l.dropWhile isPyWs).length := by
    calc ((l.dropWhile isPyWs).reverse.dropWhile isPyWs).length
        ≤ (l.dropWhile isPyWs).reverse.length := length_dropWhile_le' _ _
      _ = (l.dropWhile isPyWs).length := List.length_reverse _
  have h3 : (l.dropWhile isPyWs).length ≤ l.length := length_dropWhile_le' _ _
  have h4 : (l.dropWhile isPyWs).length = l.length := Nat.le_antisymm h3 (by omega)
  have h5 : l.dropWhile isPyWs = l := dropWhile_eq_self_of_length _ _ h4
  refine ⟨h5, ?_⟩
  unfold pyStripL at h
  rw [h5] at h
  have h7 := congrArg List.reverse h
  rw [List.reverse_reverse] at h7
  rw [h7]

theorem head_not_ws_of_pyStrip_id (l : List Char) (c : Char) (cs : List Char)
    (h : pyStripL l = l) (hl : l = c :: cs) : isPyWs c = false := by
  have := (pyStripL_id_parts l h).1
  rw [hl] at this
  exact head_false_of_dropWhile_self _ _ _ this

theorem last_not_ws_of_pyStrip_id (l : List Char) (c : Char) (cs : List Char)
    (h : pyStripL l = l) (hl : l.reverse = c :: cs) : isPyWs c = false := by
  have := (pyStripL_id_parts l h).2
  rw [hl] at this
  exact head_false_of_dropWhile_self _ _ _ this

theorem pyStripL_id_of_ends (l : List Char) (c d : Char) (cs ds : List Char)
    (hl : l = c :: cs) (hr : l.reverse = d :: ds)
    (hc : isPyWs c = false) (hd : isPyWs d = false) : pyStripL l = l := by
  unfold pyStripL
  have h1 : l.dropWhile isPyWs = l := by
    rw [hl, List.dropWhile_cons, if_neg (by simp [hc])]
  rw [h1, hr, List.dropWhile_cons, if_neg (by simp [hd]), ← hr, List.reverse_reverse]

theorem takeWhile_append_stop (p : α → Bool) (l m : List α)
    (h : ∃ x ∈ l, p x = false) : (l ++ m).takeWhile p = l.takeWhile p := by
  induction l with
  | nil => simp at h
  | cons c t ih =>
    obtain ⟨x, hx, hpx⟩ := h
    by_cases hc : p c
    · rw [List.cons_append, List.takeWhile_cons_of_pos hc, List.takeWhile_cons_of_pos hc]
      have hxt : x ∈ t := by
        rcases List.mem_cons.mp hx with h' | h'
        · subst h'; rw [hc] at hpx; cases hpx
        · exact h'
      rw [ih ⟨x, hxt, hpx⟩]
    · rw [List.cons_append, List.takeWhile_cons_of_neg hc, List.takeWhile_cons_of_neg hc]

theorem dropWhile_append_stop (p : α → Bool) (l m : List α)
    (h : ∃ x ∈ l, p x = false) : (l ++ m).dropWhile p = l.dropWhile p ++ m := by
  induction l with
  | nil => simp at h
  | cons c t ih =>
    obtain ⟨x, hx, hpx⟩ := h
    by_cases hc : p c
    · rw [List.cons_append, List.dropWhile_cons_of_pos hc, List.dropWhile_cons_of_pos hc]
      have hxt : x ∈ t := by
        rcases List.mem_cons.mp hx with h' | h'
        · subst h'; rw [hc] at hpx; cases hpx
        · exact h'
      exact ih ⟨x, hxt, hpx⟩
    · rw [List.cons_append, List.dropWhile_cons_of_neg hc, List.dropWhile_cons_of_neg hc]
      rfl

theorem splitLastNl_none (l : List Char) (h : ∀ c ∈ l, c ≠ '\n') :
    splitLastNl l = none := by
  induction l with
  | nil => rfl
  | cons c t ih =>
    have ht : splitLastNl t = none := ih (fun x hx => h x (List.mem_cons_of_mem _ hx))
    have hc : c ≠ '\n' := h c (List.mem_cons_self c _)
    simp [splitLastNl, ht, hc]

theorem splitLastNl_cons_nl (s : List Char) (h : ∀ c ∈ s, c ≠ '\n') :
    splitLastNl ('\n' :: s) = some ([], s) := by
  simp [splitLastNl, splitLastNl_none s h]

theorem collapse_nlfree (l : List Char) (f : Nat) (h : ∀ c ∈ l, c ≠ '\n') :
    collapseGo f l = l := by
  induction l generalizing f with
  | nil => cases f <;> rfl
  | cons c t ih =>
    cases f with
    | zero => rfl
    | succ g =>
      have hc : c ≠ '\n' := h c (List.mem_cons_self c _)
      simp only [collapseGo, if_neg hc]
      rw [ih g (fun x hx => h x (List.mem_cons_of_mem _ hx))]

theorem collapse_copy (l m : List Char) (f : Nat)
    (h : ∀ c ∈ l, c ≠ '\n') (hf : l.length ≤ f) :
    collapseGo f (l ++ m) = l ++ collapseGo (f - l.length) m := by
  induction l generalizing f with
  | nil => simp
  | cons c t ih =>
    cases f with
    | zero => simp at hf
    | succ g =>
      have hc : c ≠ '\n' := h c (List.mem_cons_self c _)
      rw [List.cons_append]
      simp only [collapseGo, if_neg hc]
      rw [ih g (fun x hx => h x (List.mem_cons_of_mem _ hx)) (by simpa using hf)]
      simp [Nat.succ_sub_succ]

theorem mem_of_mem_takeWhileL {p : α → Bool} {x : α} :
    ∀ l : List α, x ∈ l.takeWhile p → x ∈ l := by
  intro l
  induction l with
  | nil => simp
  | cons c t ih =>
    by_cases hc : p c
    · rw [List.takeWhile_cons_of_pos hc]
      intro h
      rcases List.mem_cons.mp h with h' | h'
      · simp [h']
      · exact List.mem_cons_of_mem _ (ih h')
    · rw [List.takeWhile_cons_of_neg hc]
      simp

theorem mem_of_mem_dropWhileL {p : α → Bool} {x : α} :
    ∀ l : List α, x ∈ l.dropWhile p → x ∈ l := by
  intro l
  induction l with
  | nil => simp
  | cons c t ih =>
    by_cases hc : p c
    · rw [List.dropWhile_cons_of_pos hc]
      intro h
      exact List.mem_cons_of_mem _ (ih h)
    · rw [List.dropWhile_cons_of_neg hc]
      simp

theorem blankLine_empty : blankLine "" = true := rfl

theorem noTwoAdjacentBlank_tail (x : String) (t : List String)
    (h : noTwoAdjacentBlank (x :: t) = true) : noTwoAdjacentBlank t = true := by
  cases t with
  | nil => rfl
  | cons b r =>
    have : noTwoAdjacentBlank (x :: b :: r)
        = (!(blankLine x && blankLine b) && noTwoAdjacentBlank (b :: r)) := rfl
    rw [this, Bool.and_eq_true] at h
    exact h.2

theorem noTwoAdjacentBlank_cons (x : String) (t : List String)
    (hx : blankLine x = false) (ht : noTwoAdjacentBlank t = true) :
    noTwoAdjacentBlank (x :: t) = true := by
  cases t with
  | nil => rfl
  | cons b r =>
    show (!(blankLine x && blankLine b) && noTwoAdjacentBlank (b :: r)) = true
    rw [hx, ht]
    simp

theorem data_joinSep_cons_cons (a b : String) (t : List String) :
    (joinSep "\n" (a :: b :: t)).data = a.data ++ '\n' :: (joinSep "\n" (b :: t)).data := by
  show (a ++ "\n" ++ joinSep "\n" (b :: t)).data = _
  rw [String.data_append, String.data_append]
  simp

theorem collapseGo_succ_cons (f : Nat) (c : Char) (rest : List Char) :
    collapseGo (f + 1) (c :: rest) =
      if c = '\n' then
        match splitLastNl (rest.takeWhile isPyWs) with
        | none => c :: collapseGo f rest
        | some (_, post) => '\n' :: '\n' :: (post ++ collapseGo f (rest.dropWhile isPyWs))
      else c :: collapseGo f rest := rfl

theorem exists_not_ws_of_not_blank (b : String) (hb : blankLine b = false) :
    ∃ x ∈ b.data, isPyWs x = false := by
  unfold blankLine at hb
  rcases List.all_eq_false.mp hb with ⟨x, hx, hpx⟩
  exact ⟨x, hx, by simpa using hpx⟩

/-- `joinSep "\\n"` of a non-empty line list starts with the first line,
and stripping that line's leading whitespace commutes with the join. -/
theorem joinSep_head_decomp (c' : String) (t2 : List String) :
    ∃ rest3 : List Char,
      (joinSep "\n" (c' :: t2)).data = c'.data ++ rest3 ∧
      (joinSep "\n" (String.mk (c'.data.dropWhile isPyWs) :: t2)).data
        = c'.data.dropWhile isPyWs ++ rest3 := by
  cases t2 with
  | nil => exact ⟨[], by simp [joinSep], by simp [joinSep]⟩
  | cons d t3 =>
    refine ⟨'\n' :: (joinSep "\n" (d :: t3)).data, ?_, ?_⟩
    · rw [data_joinSep_cons_cons]
    · rw [data_joinSep_cons_cons]

theorem dropWhile_head_false (p : α → Bool) (l : List α) (c : α) (cs : List α)
    (h : l.dropWhile p = c :: cs) : p c = false := by
  induction l with
  | nil => simp at h
  | cons a t ih =>
    by_cases ha : p a
    · rw [List.dropWhile_cons_of_pos ha] at h
      exact ih h
    · rw [List.dropWhile_cons_of_neg ha] at h
      rw [List.cons.injEq] at h
      rw [← h.1]
      simpa using ha

/-- Key identity behind the upload/view round trip: on a text that is a
newline-join of lines none of which contains a newline, in which every
whitespace-only line is empty and no two consecutive lines are blank,
the blank-line-collapsing substitution is the identity. -/
theorem collapse_joinLines_id : ∀ (n : Nat) (ls : List String),
    ls.length ≤ n →
    (∀ ln ∈ ls, ∀ c ∈ ln.data, c ≠ '\n') →
    (∀ ln ∈ ls, ln.data.all isPyWs = true → ln = "") →
    noTwoAdjacentBlank ls = true →
    ∀ f, (joinSep "\n" ls).data.length ≤ f →
    collapseGo f (joinSep "\n" ls).data = (joinSep "\n" ls).data := by
  intro n
  induction n with
  | zero =>
    intro ls hlen _ _ _ f _
    have hnil : ls = [] := List.length_eq_zero.mp (Nat.le_zero.mp hlen)
    subst hnil
    cases f <;> rfl
  | succ n ih =>
    intro ls hlen h1 h2 h3 f hf
    match ls with
    | [] => cases f <;> rfl
    | [a] => exact collapse_nlfree _ f (h1 a (by simp))
    | a :: b :: t =>
      have hJdef := data_joinSep_cons_cons a b t
      have hano : ∀ c ∈ a.data, c ≠ '\n' := h1 a (by simp)
      rw [hJdef] at hf ⊢
      have hflen : a.data.length + (1 + (joinSep "\n" (b :: t)).data.length) ≤ f := by
        simp only [List.length_append, List.length_cons] at hf
        omega
      have halen : a.data.length ≤ f := by omega
      rw [collapse_copy a.data _ f hano halen]
      congr 1
      have hf1 : 1 + (joinSep "\n" (b :: t)).data.length ≤ f - a.data.length := by omega
      cases hcg : f - a.data.length with
      | zero => omega
      | succ g =>
        have hgJ : (joinSep "\n" (b :: t)).data.length ≤ g := by omega
        by_cases hb : b = ""
        · subst hb
          cases t with
          | nil =>
            show collapseGo (g + 1) ('\n' :: (joinSep "\n" [""]).data)
                = '\n' :: (joinSep "\n" [""]).data
            have hJnil : (joinSep "\n" [""]).data = [] := rfl
            rw [hJnil, collapseGo_succ_cons, if_pos rfl]
            rw [List.takeWhile_nil, show splitLastNl [] = none from rfl]
            show '\n' :: collapseGo g [] = ['\n']
            cases g <;> rfl
          | cons c' t2 =>
            have h3' : blankLine c' = false ∧ noTwoAdjacentBlank (c' :: t2) = true := by
              have hstep : noTwoAdjacentBlank ("" :: c' :: t2) = true :=
                noTwoAdjacentBlank_tail _ _ h3
              have hun : noTwoAdjacentBlank ("" :: c' :: t2)
                  = (!(blankLine "" && blankLine c') && noTwoAdjacentBlank (c' :: t2)) := rfl
              rw [hun, blankLine_empty, Bool.true_and, Bool.and_eq_true,
                Bool.not_eq_true'] at hstep
              exact hstep
            have hex' : ∃ x ∈ c'.data, isPyWs x = false :=
              exists_not_ws_of_not_blank c' h3'.1
            obtain ⟨rest3, hdec, hdec'⟩ := joinSep_head_decomp c' t2
            have hKdef : (joinSep "\n" ("" :: c' :: t2)).data
                = '\n' :: (c'.data ++ rest3) := by
              rw [data_joinSep_cons_cons, hdec]
              rfl
            rw [hKdef, collapseGo_succ_cons, if_pos rfl]
            have htk : ('\n' :: (c'.data ++ rest3)).takeWhile isPyWs
                = '\n' :: c'.data.takeWhile isPyWs := by
              rw [List.takeWhile_cons_of_pos (by decide : isPyWs '\n' = true),
                takeWhile_append_stop _ _ _ hex']
            have hnn : ∀ c ∈ c'.data.takeWhile isPyWs, c ≠ '\n' :=
              fun c hc => h1 c' (by simp) c (mem_of_mem_takeWhileL _ hc)
            rw [htk, splitLastNl_cons_nl _ hnn]
            have hdw : ('\n' :: (c'.data ++ rest3)).dropWhile isPyWs
                = c'.data.dropWhile isPyWs ++ rest3 := by
              rw [List.dropWhile_cons_of_pos (by decide : isPyWs '\n' = true),
                dropWhile_append_stop _ _ _ hex']
            show '\n' :: '\n' :: (c'.data.takeWhile isPyWs
                ++ collapseGo g (('\n' :: (c'.data ++ rest3)).dropWhile isPyWs))
                = '\n' :: '\n' :: (c'.data ++ rest3)
            rw [hdw, ← hdec']
            have hblank'' : blankLine (String.mk (c'.data.dropWhile isPyWs)) = false := by
              unfold blankLine
              show (c'.data.dropWhile isPyWs).all isPyWs = false
              rcases hlst : c'.data.dropWhile isPyWs with _ | ⟨d, ds⟩
              · rcases hex' with ⟨x, hx, hpx⟩
                have hws := List.dropWhile_eq_nil_iff.mp hlst x hx
                simp [hpx] at hws
              · have hd : isPyWs d = false := dropWhile_head_false _ _ _ _ hlst
                simp [hd]
            have hIH := ih (String.mk (c'.data.dropWhile isPyWs) :: t2)
              (by
                have : (a :: "" :: c' :: t2).length ≤ n + 1 := hlen
                simp only [List.length_cons] at this ⊢
                omega)
              (by
                intro ln hln c hc
                rcases List.mem_cons.mp hln with h' | h'
                · subst h'
                  exact h1 c' (by simp) c (mem_of_mem_dropWhileL _ hc)
                · exact h1 ln (by simp [h']) c hc)
              (by
                intro ln hln hall
                rcases List.mem_cons.mp hln with h' | h'
                · have hbf := hblank''
                  unfold blankLine at hbf
                  rw [h'] at hall
                  rw [hall] at hbf
                  cases hbf
                · exact h2 ln (by simp [h']) hall)
              (noTwoAdjacentBlank_cons _ _ hblank''
                (noTwoAdjacentBlank_tail c' t2 h3'.2))
              g
              (by
                rw [hdec']
                have h5 := length_dropWhile_le' isPyWs c'.data
                have h6 : (joinSep "\n" ("" :: c' :: t2)).data.length ≤ g := hgJ
                rw [hKdef] at h6
                simp only [List.length_append, List.length_cons] at h6 ⊢
                omega)
            rw [hIH, hdec', ← List.append_assoc, List.takeWhile_append_dropWhile]
        · have hbblank : blankLine b = false := by
            rcases hb' : blankLine b with _ | _
            · rfl
            · exact absurd (h2 b (by simp) hb') hb
          have hex : ∃ x ∈ b.data, isPyWs x = false :=
            exists_not_ws_of_not_blank b hbblank
          obtain ⟨rest3, hdec, -⟩ := joinSep_head_decomp b t
          rw [hdec, collapseGo_succ_cons, if_pos rfl]
          have htk : (b.data ++ rest3).takeWhile isPyWs = b.data.takeWhile isPyWs :=
            takeWhile_append_stop _ _ _ hex
          have hnon : ∀ c ∈ (b.data ++ rest3).takeWhile isPyWs, c ≠ '\n' := by
            rw [htk]
            intro c hc
            exact h1 b (by simp) c (mem_of_mem_takeWhileL _ hc)
          rw [splitLastNl_none _ hnon]
          show '\n' :: collapseGo g (b.data ++ rest3) = '\n' :: (b.data ++ rest3)
          rw [← hdec]
          congr 1
          exact ih (b :: t)
            (by
              have : (a :: b :: t).length ≤ n + 1 := hlen
              simp only [List.length_cons] at this ⊢
              omega)
            (fun ln hln => h1 ln (List.mem_cons_of_mem _ hln))
            (fun ln hln => h2 ln (List.mem_cons_of_mem _ hln))
            (noTwoAdjacentBlank_tail _ _ h3)
            g (by rw [hdec] at hgJ ⊢; exact hgJ)

theorem lookupFile_writeFile_self (st : Storage) (n c : String) :
    lookupFile (writeFile st n c) n = some c := by
  simp [lookupFile, writeFile, List.find?_cons]

theorem find?_filter_ne (l : List (String × String)) (n : String) :
    (l.filter (fun p => p.1 != n)).find? (fun p => p.1 == n) = none := by
  induction l with
  | nil => rfl
  | cons a t ih =>
    by_cases ha : a.1 = n
    · rw [List.filter_cons, if_neg (by simp [ha])]
      exact ih
    · rw [List.filter_cons, if_pos (by simp [ha]), List.find?_cons_of_neg _ (by simp [ha])]
      exact ih

theorem lookupFile_removeFile_self (st : Storage) (n : String) :
    lookupFile (removeFile st n) n = none := by
  simp [lookupFile, removeFile, find?_filter_ne]

theorem any_filter_ne (l : List (String × List String)) (n : String) :
    (l.filter (fun p => p.1 != n)).any (fun p => p.1 == n) = false := by
  induction l with
  | nil => rfl
  | cons a t ih =>
    by_cases ha : a.1 = n
    · rw [List.filter_cons, if_neg (by simp [ha])]
      exact ih
    · rw [List.filter_cons, if_pos (by simp [ha]), List.any_cons, ih]
      simp [ha]

theorem hasDir_removeDir_self (st : Storage) (n : String) :
    hasDir (removeDir st n) n = false := by
  simp [hasDir, removeDir, any_filter_ne st.dirs n]

theorem lookupFile_removeDir (st : Storage) (n m : String) :
    lookupFile (removeDir st n) m = lookupFile st m := rfl

theorem hasDir_mkdirIfAbsent_self (st : Storage) (n : String) :
    hasDir (mkdirIfAbsent st n) n = true := by
  unfold mkdirIfAbsent
  by_cases h : hasDir st n
  · rw [if_pos h]
    exact h
  · rw [if_neg h]
    simp [hasDir]

theorem mem_listing_of_hasDir (st : Storage) (n : String)
    (h : hasDir st n = true) : n ∈ listing st := by
  unfold listing
  rw [mem_sortStrings, List.mem_append]
  right
  rcases List.any_eq_true.mp h with ⟨p, hp, hbeq⟩
  exact List.mem_map.mpr ⟨p, hp, by simpa using hbeq⟩

theorem extractImages_go_nomatch (fn : String) (entries : List (String × String))
    (h : ∀ e ∈ entries, isMediaImage e.1 = false) :
    ∀ acc : Storage × List String,
      entries.foldl (fun acc entry =>
        if isMediaImage entry.1 then
          (addImage acc.1 (imgDirName fn) (baseName entry.1),
           acc.2 ++ ["/uploads/" ++ imgDirName fn ++ "/" ++ baseName entry.1])
        else acc) acc = acc := by
  induction entries with
  | nil => intro acc; rfl
  | cons e t ih =>
    intro acc
    rw [List.foldl_cons, if_neg (by simp [h e (by simp)])]
    exact ih (fun x hx => h x (by simp [hx])) acc

theorem extractImages_nomatch (st : Storage) (fn : String)
    (entries : List (String × String))
    (h : ∀ e ∈ entries, isMediaImage e.1 = false) :
    extractImages st fn entries = (st, []) :=
  extractImages_go_nomatch fn entries h (st, [])

theorem pyStripL_ne_nil (l : List Char) (x : Char) (hx : x ∈ l)
    (hpx : isPyWs x = false) : pyStripL l ≠ [] := by
  unfold pyStripL
  intro hcon
  have h1 : (l.dropWhile isPyWs).reverse.dropWhile isPyWs = [] := by
    have := congrArg List.reverse hcon
    rwa [List.reverse_reverse] at this
  have h2 : ∀ y ∈ (l.dropWhile isPyWs).reverse, isPyWs y := List.dropWhile_eq_nil_iff.mp h1
  have h3 : l.dropWhile isPyWs ≠ [] := by
    intro hnil
    have := List.dropWhile_eq_nil_iff.mp hnil x hx
    rw [this] at hpx
    cases hpx
  rcases hlst : l.dropWhile isPyWs with _ | ⟨d, ds⟩
  · exact h3 hlst
  · have hd : isPyWs d = false := dropWhile_head_false _ _ _ _ hlst
    have hdmem : d ∈ (l.dropWhile isPyWs).reverse := by
      rw [hlst]
      simp
    have := h2 d hdmem
    rw [this] at hd
    cases hd

theorem pyStrip_data (s : String) : (pyStrip s).data = pyStripL s.data := rfl

theorem pyStrip_empty : pyStrip "" = "" := rfl

theorem pyStripL_of_pyStrip_id (s : String) (h : pyStrip s = s) :
    pyStripL s.data = s.data := by
  have := congrArg String.data h
  rwa [pyStrip_data] at this

theorem eq_empty_of_data_nil (s : String) (h : s.data = []) : s = "" := by
  have hs : s = ⟨s.data⟩ := rfl
  rw [hs, h]

/-- Stripping is the identity on a concatenation whose two end parts are
themselves non-empty and stripped. -/
theorem pyStrip_concat (a m b : String)
    (ha : pyStrip a = a) (hna : a ≠ "") (hb : pyStrip b = b) (hnb : b ≠ "") :
    pyStrip (a ++ m ++ b) = a ++ m ++ b := by
  have hla := pyStripL_of_pyStrip_id a ha
  have hlb := pyStripL_of_pyStrip_id b hb
  have hda : a.data ≠ [] := fun hc => hna (eq_empty_of_data_nil a hc)
  have hdb : b.data ≠ [] := fun hc => hnb (eq_empty_of_data_nil b hc)
  rcases hca : a.data with _ | ⟨c, cs⟩
  · exact absurd hca hda
  rcases hcb : b.data.reverse with _ | ⟨d, ds⟩
  · refine absurd ?_ hdb
    have := congrArg List.reverse hcb
    simpa using this
  have hc : isPyWs c = false := head_not_ws_of_pyStrip_id a.data c cs hla hca
  have hd : isPyWs d = false := last_not_ws_of_pyStrip_id b.data d ds hlb hcb
  have hdata : (a ++ m ++ b).data = a.data ++ m.data ++ b.data := by
    rw [String.data_append, String.data_append]
  have hshape1 : (a ++ m ++ b).data = c :: (cs ++ m.data ++ b.data) := by
    rw [hdata, hca]
    simp
  have hshape2 : (a ++ m ++ b).data.reverse
      = d :: (ds ++ (m.data.reverse ++ a.data.reverse)) := by
    rw [hdata, List.reverse_append, List.reverse_append, hcb]
    simp
  have hid : pyStripL (a ++ m ++ b).data = (a ++ m ++ b).data :=
    pyStripL_id_of_ends _ c d _ _ hshape1 hshape2 hc hd
  show (⟨pyStripL (a ++ m ++ b).data⟩ : String) = a ++ m ++ b
  rw [hid]

theorem docx_lists_eq : ∀ paras : List String, (∀ p ∈ paras, pyStrip p = p) →
    paras.filterMap (fun p => if pyStrip p = "" then none else some (pyStrip p))
      = paras.filter (fun p => p != "") := by
  intro paras
  induction paras with
  | nil => intro _; rfl
  | cons q t ih =>
    intro h
    have hq := h q (by simp)
    have ht := ih (fun p hp => h p (by simp [hp]))
    by_cases hqe : q = ""
    · subst hqe
      rw [List.filterMap_cons, List.filter_cons]
      simp [pyStrip_empty, ht]
    · rw [List.filterMap_cons, List.filter_cons]
      simp [hq, hqe, ht]

/-! ## Claim theorems -/

/-- C1 counterexample: the download-variant PDF extraction does *not*
skip blank pages: a three-page document whose second page is blank keeps
the blank page's (empty) text, so the surviving texts end up separated by
two blank-line separators, not one, unlike the view extraction. -/
theorem download_pdf_blank_page_cex :
    dlPdfExtract ["A", "", "B"] = "A\n\n\n\nB" ∧
    viewPdfExtract ["A", "", "B"] = "A\n\nB" ∧
    dlPdfExtract ["A", "", "B"] ≠ "A" ++ "\n\n" ++ "B" := by
  refine ⟨by decide, by decide, by decide⟩

/-- C1 amended: the download-variant PDF extraction joins *every* page's
raw text — blank pages included, without per-page trimming or skipping —
with a blank-line separator and then trims the whole; hence a 3-page PDF
whose second page is blank yields page 1's text and page 3's text joined
by two consecutive blank-line separators, whereas the view extraction
joins them with exactly one. -/
theorem download_pdf_joins_all_pages (a b : String)
    (ha : pyStrip a = a) (hna : a ≠ "") (hb : pyStrip b = b) (hnb : b ≠ "") :
    dlPdfExtract [a, "", b] = a ++ "\n\n\n\n" ++ b ∧
    viewPdfExtract [a, "", b] = a ++ "\n\n" ++ b := by
  constructor
  · unfold dlPdfExtract
    have hj : joinSep "\n\n" [a, "", b] = a ++ "\n\n\n\n" ++ b := by
      show a ++ "\n\n" ++ ("" ++ "\n\n" ++ b) = a ++ "\n\n\n\n" ++ b
      rw [String.ext_iff]
      simp only [String.data_append,
        show ("\n\n" : String).data = ['\n', '\n'] from rfl,
        show ("\n\n\n\n" : String).data = ['\n', '\n', '\n', '\n'] from rfl,
        show ("" : String).data = [] from rfl]
      simp
    rw [hj]
    exact pyStrip_concat a "\n\n\n\n" b ha hna hb hnb
  · unfold viewPdfExtract
    rw [List.filterMap_cons, List.filterMap_cons, List.filterMap_cons]
    simp only [ha, hb, pyStrip_empty, if_pos rfl, hna, hnb, if_neg hna, if_neg hnb,
      List.filterMap_nil]
    rfl

theorem download_pdf_joins_all_pages_witness :
    dlPdfExtract ["A", "", "B"] = "A" ++ "\n\n\n\n" ++ "B" ∧
    viewPdfExtract ["A", "", "B"] = "A" ++ "\n\n" ++ "B" :=
  download_pdf_joins_all_pages "A" "B" (by decide) (by decide) (by decide) (by decide)

/-- C2 counterexample: for a DOCX paragraph carrying leading/trailing
whitespace, the view extraction trims it but the download-variant keeps
it untrimmed, so the two extractions differ. -/
theorem docx_untrimmed_cex :
    viewDocxExtract [" a "] = "a" ∧
    dlDocxExtract [" a "] = " a " ∧
    dlDocxExtract [" a "] ≠ viewDocxExtract [" a "] := by
  refine ⟨by decide, by decide, by decide⟩

/-- C2 amended: the view extraction yields the trimmed text of every
paragraph whose trimmed text is non-empty joined with newlines, while the
download-variant keeps the surviving paragraphs untrimmed; the two agree
exactly when every paragraph is already trimmed, in which case both equal
the newline-join of the non-empty paragraphs. -/
theorem docx_extract_agree_on_trimmed (paras : List String)
    (h : ∀ p ∈ paras, pyStrip p = p) :
    dlDocxExtract paras = viewDocxExtract paras ∧
    viewDocxExtract paras = joinSep "\n" (paras.filter (fun p => p != "")) := by
  have hflt : paras.filter (fun p => pyStrip p != "") = paras.filter (fun p => p != "") := by
    apply List.filter_congr
    intro p hp
    rw [h p hp]
  have hmain : viewDocxExtract paras = joinSep "\n" (paras.filter (fun p => p != "")) := by
    unfold viewDocxExtract
    rw [docx_lists_eq paras h]
  refine ⟨?_, hmain⟩
  calc dlDocxExtract paras
      = joinSep "\n" (paras.filter (fun p => pyStrip p != "")) := rfl
    _ = joinSep "\n" (paras.filter (fun p => p != "")) := by rw [hflt]
    _ = viewDocxExtract paras := hmain.symm

theorem docx_extract_agree_on_trimmed_witness :
    dlDocxExtract ["a", "", "b"] = viewDocxExtract ["a", "", "b"] ∧
    viewDocxExtract ["a", "", "b"] = "a\nb" := by
  have h := docx_extract_agree_on_trimmed ["a", "", "b"] (by decide)
  refine ⟨h.1, ?_⟩
  rw [h.2]
  decide

/-- C5: for every `POST /update/{filename}`, when the lower-cased trailing
extension is `txt` the named file's content becomes exactly the trimmed
`new_content`; for every other extension the whole storage is left
unchanged (no file created or modified); in both cases the response is a
303 redirect to `/`. -/
theorem update_txt_only (st : Storage) (fn c : String) :
    (extOf fn = "txt" →
      lookupFile (update_file st fn c).1 fn = some (pyStrip c)) ∧
    (extOf fn ≠ "txt" → (update_file st fn c).1 = st) ∧
    (update_file st fn c).2 = ⟨"/", 303⟩ := by
  refine ⟨?_, ?_, ?_⟩
  · intro h
    simp only [update_file, if_pos h]
    exact lookupFile_writeFile_self st fn (pyStrip c)
  · intro h
    simp only [update_file, if_neg h]
  · unfold update_file
    split <;> rfl

theorem update_txt_only_witness :
    lookupFile (update_file emptyStorage "a.txt" " x ").1 "a.txt" = some "x" ∧
    (update_file emptyStorage "b.pdf" "z").1 = emptyStorage ∧
    (update_file emptyStorage "b.pdf" "z").2 = ⟨"/", 303⟩ := by
  refine ⟨?_, ?_, ?_⟩
  · have h := (update_txt_only emptyStorage "a.txt" " x ").1 (by decide)
    rw [h]
    decide
  · exact (update_txt_only emptyStorage "b.pdf" "z").2.1 (by decide)
  · exact (update_txt_only emptyStorage "b.pdf" "z").2.2

/-- C9: `POST /update/{filename}` performs no existence check: for a
`.txt` filename that is absent from storage the update creates the file
with the trimmed `new_content` and still answers a 303 redirect, while
`GET /view` of the same missing filename merely redirects. -/
theorem update_creates_missing_txt (it : Interp) (st : Storage) (fn c : String)
    (hext : extOf fn = "txt") (habsent : lookupFile st fn = none) :
    lookupFile (update_file st fn c).1 fn = some (pyStrip c) ∧
    (update_file st fn c).2 = ⟨"/", 303⟩ ∧
    view_file it st fn = (st, .redirect "/" 303) := by
  refine ⟨?_, ?_, ?_⟩
  · simp only [update_file, if_pos hext]
    exact lookupFile_writeFile_self st fn (pyStrip c)
  · simp only [update_file, if_pos hext]
  · unfold view_file
    rw [habsent]

theorem update_creates_missing_txt_witness :
    lookupFile (update_file emptyStorage "new.txt" " hi ").1 "new.txt" = some "hi" ∧
    (update_file emptyStorage "new.txt" " hi ").2 = ⟨"/", 303⟩ := by
  have h := update_creates_missing_txt trivialInterp emptyStorage "new.txt" " hi "
    (by decide) (by decide)
  refine ⟨?_, h.2.1⟩
  rw [h.1]
  decide

/-- C6: `GET /delete/{filename}` leaves neither the file nor its
`_images` folder in storage, always answers a 303 redirect to `/` (also
when the file was already absent), and deleting twice equals deleting
once (idempotence). -/
theorem delete_idempotent (st : Storage) (fn : String) :
    lookupFile (delete_file st fn).1 fn = none ∧
    hasDir (delete_file st fn).1 (imgDirName fn) = false ∧
    (delete_file st fn).2 = ⟨"/", 303⟩ ∧
    delete_file (delete_file st fn).1 fn = delete_file st fn := by
  have step : ∀ s : Storage,
      lookupFile (delete_file s fn).1 fn = none ∧
      hasDir (delete_file s fn).1 (imgDirName fn) = false ∧
      (delete_file s fn).2 = ⟨"/", 303⟩ := by
    intro s
    rcases hl : lookupFile s fn with _ | v
    · by_cases hd : hasDir s (imgDirName fn)
      · refine ⟨?_, ?_, ?_⟩ <;>
          simp [delete_file, hl, hd, lookupFile_removeDir, hasDir_removeDir_self]
      · rw [Bool.not_eq_true] at hd
        refine ⟨?_, ?_, ?_⟩ <;> simp [delete_file, hl, hd]
    · by_cases hd : hasDir (removeFile s fn) (imgDirName fn)
      · refine ⟨?_, ?_, ?_⟩ <;>
          simp [delete_file, hl, hd, lookupFile_removeDir, hasDir_removeDir_self,
            lookupFile_removeFile_self]
      · rw [Bool.not_eq_true] at hd
        refine ⟨?_, ?_, ?_⟩ <;>
          simp [delete_file, hl, hd, lookupFile_removeFile_self]
  obtain ⟨h1, h2, h3⟩ := step st
  have key : ∀ s : Storage, lookupFile s fn = none →
      hasDir s (imgDirName fn) = false → delete_file s fn = (s, ⟨"/", 303⟩) := by
    intro s ha hb
    simp [delete_file, ha, hb]
  refine ⟨h1, h2, h3, ?_⟩
  rw [key _ h1 h2]
  exact Prod.ext rfl h3.symm

theorem finalize_error (e : String) :
    finalizeContent ("[Error reading file: " ++ e ++ "]") []
      = "[Error reading file: " ++ e ++ "]" := by
  unfold finalizeContent
  rw [if_neg]
  rintro ⟨h1, -⟩
  have hmem : '[' ∈ ("[Error reading file: " ++ e ++ "]").data := by
    rw [String.data_append, String.data_append]
    exact List.mem_append.mpr (Or.inl (List.mem_append.mpr (Or.inl (by decide))))
  have hne := pyStripL_ne_nil _ '[' hmem (by decide)
  have hdat : (pyStrip ("[Error reading file: " ++ e ++ "]")).data = [] := by
    rw [h1]
  rw [pyStrip_data] at hdat
  exact hne hdat

/-- Unfolding of `download_text` once the file is known to exist. -/
theorem download_text_some (it : Interp) (st : Storage) (fn bytes : String)
    (h : lookupFile st fn = some bytes) :
    download_text it st fn =
      match dlExtract it (extOf fn) bytes with
      | none => ⟨400, "Unsupported file type", none⟩
      | some (.error e) => ⟨500, "Error extracting text: " ++ e, none⟩
      | some (.ok content) =>
        if pyStrip content = "" then ⟨204, "No readable text found.", none⟩
        else
          ⟨200, content,
           some ("attachment; filename=\"" ++ splitextBase fn ++ "_extracted.txt\"")⟩ := by
  unfold download_text
  rw [h]

/-- Unfolding of `view_file` once the file is known to exist. -/
theorem view_file_some (it : Interp) (st : Storage) (fn bytes : String)
    (h : lookupFile st fn = some bytes) :
    view_file it st fn =
      if extOf fn = "txt" then
        (st, .page fn (finalizeContent (viewPostProcess bytes) []) [])
      else if extOf fn = "pdf" then
        match it.pdfOf bytes with
        | .error e =>
          (st, .page fn (finalizeContent ("[Error reading file: " ++ e ++ "]") []) [])
        | .ok pages =>
          (st, .page fn (finalizeContent (viewPostProcess (viewPdfExtract pages)) []) [])
      else if extOf fn = "docx" then
        match it.docxDocOf bytes with
        | .error e =>
          (st, .page fn (finalizeContent ("[Error reading file: " ++ e ++ "]") []) [])
        | .ok paras =>
          let content0 := viewDocxExtract paras
          let st1 := mkdirIfAbsent st (imgDirName fn)
          match it.docxZipOf bytes with
          | .error e =>
            (st1, .page fn (finalizeContent ("[Error reading file: " ++ e ++ "]") []) [])
          | .ok entries =>
            let res := extractImages st1 fn entries
            let content1 :=
              if pyStrip content0 = "" ∧ res.2 = [] then
                "[This DOCX file appears empty or unsupported.]"
              else content0
            (res.1, .page fn (finalizeContent (viewPostProcess content1) res.2) res.2)
      else
        (st, .page fn
          (finalizeContent (viewPostProcess "[Unsupported file format for preview.]") []) []) := by
  unfold view_file
  rw [h]

/-- C3: the status outcomes of `GET /download_text/{filename}`: 404 when
the file is missing; 400 when the lower-cased extension is none of `txt`,
`pdf`, `docx`; 500 with an error-message body when extraction raises; 204
when the extracted text trims to empty; otherwise 200 with the extracted
text as body and a `Content-Disposition` attachment header naming
`<base>_extracted.txt`, `<base>` being the filename without its
extension. -/
theorem download_route_statuses (it : Interp) (st : Storage) (fn : String) :
    (lookupFile st fn = none →
      download_text it st fn = ⟨404, "File not found", none⟩) ∧
    (∀ bytes, lookupFile st fn = some bytes →
      extOf fn ≠ "txt" → extOf fn ≠ "pdf" → extOf fn ≠ "docx" →
      download_text it st fn = ⟨400, "Unsupported file type", none⟩) ∧
    (∀ bytes c, lookupFile st fn = some bytes →
      dlExtract it (extOf fn) bytes = some (.ok c) → pyStrip c = "" →
      download_text it st fn = ⟨204, "No readable text found.", none⟩) ∧
    (∀ bytes e, lookupFile st fn = some bytes →
      dlExtract it (extOf fn) bytes = some (.error e) →
      download_text it st fn = ⟨500, "Error extracting text: " ++ e, none⟩) ∧
    (∀ bytes c, lookupFile st fn = some bytes →
      dlExtract it (extOf fn) bytes = some (.ok c) → pyStrip c ≠ "" →
      download_text it st fn =
        ⟨200, c,
         some ("attachment; filename=\"" ++ splitextBase fn ++ "_extracted.txt\"")⟩) := by
  refine ⟨?_, ?_, ?_, ?_, ?_⟩
  · intro h
    unfold download_text
    rw [h]
  · intro bytes h h1 h2 h3
    have hx : dlExtract it (extOf fn) bytes = none := by
      unfold dlExtract
      rw [if_neg h1, if_neg h2, if_neg h3]
    rw [download_text_some it st fn bytes h, hx]
  · intro bytes c h hex hblank
    rw [download_text_some it st fn bytes h, hex]
    show (if pyStrip c = "" then _ else _) = _
    rw [if_pos hblank]
  · intro bytes e h hex
    rw [download_text_some it st fn bytes h, hex]
  · intro bytes c h hex hnb
    rw [download_text_some it st fn bytes h, hex]
    show (if pyStrip c = "" then _ else _) = _
    rw [if_neg hnb]

theorem download_route_statuses_witness :
    download_text trivialInterp emptyStorage "missing.txt"
      = ⟨404, "File not found", none⟩ ∧
    download_text trivialInterp (upload_file emptyStorage "file.xyz" "hello").1 "file.xyz"
      = ⟨400, "Unsupported file type", none⟩ ∧
    download_text trivialInterp (upload_file emptyStorage "w.txt" " ").1 "w.txt"
      = ⟨204, "No readable text found.", none⟩ ∧
    download_text errInterp pdfStorage "f.pdf"
      = ⟨500, "Error extracting text: boom", none⟩ ∧
    download_text trivialInterp (upload_file emptyStorage "h.txt" "hello").1 "h.txt"
      = ⟨200, "hello", some "attachment; filename=\"h_extracted.txt\""⟩ := by
  refine ⟨?_, ?_, ?_, ?_, ?_⟩
  · exact (download_route_statuses trivialInterp emptyStorage "missing.txt").1 (by decide)
  · exact (download_route_statuses trivialInterp
      (upload_file emptyStorage "file.xyz" "hello").1 "file.xyz").2.1 "hello"
      (by decide) (by decide) (by decide) (by decide)
  · exact (download_route_statuses trivialInterp
      (upload_file emptyStorage "w.txt" " ").1 "w.txt").2.2.1 " " " "
      (by decide) (by rfl) (by decide)
  · exact (download_route_statuses errInterp pdfStorage "f.pdf").2.2.2.1 "x" "boom"
      (by decide) (by rfl)
  · have h := (download_route_statuses trivialInterp
      (upload_file emptyStorage "h.txt" "hello").1 "h.txt").2.2.2.2 "hello" "hello"
      (by decide) (by rfl) (by decide)
    rw [h]
    decide

/-- C8: an exception raised by the parsing libraries is always caught:
the view route renders it as the `[Error reading file: ...]` placeholder
and the download route answers 500 with an `Error extracting text: ...`
body; neither route propagates the exception (both are total functions of
the model).  Covers a PDF parse failure, a DOCX document parse failure,
and a DOCX zip-scan failure. -/
theorem extraction_errors_caught (it : Interp) (st : Storage) (fn bytes e : String)
    (hlook : lookupFile st fn = some bytes) :
    (extOf fn = "pdf" → it.pdfOf bytes = .error e →
      (view_file it st fn).2 = .page fn ("[Error reading file: " ++ e ++ "]") [] ∧
      download_text it st fn = ⟨500, "Error extracting text: " ++ e, none⟩) ∧
    (extOf fn = "docx" → it.docxDocOf bytes = .error e →
      (view_file it st fn).2 = .page fn ("[Error reading file: " ++ e ++ "]") [] ∧
      download_text it st fn = ⟨500, "Error extracting text: " ++ e, none⟩) ∧
    (extOf fn = "docx" → ∀ paras, it.docxDocOf bytes = .ok paras →
      it.docxZipOf bytes = .error e →
      (view_file it st fn).2 = .page fn ("[Error reading file: " ++ e ++ "]") []) := by
  refine ⟨?_, ?_, ?_⟩
  · intro hext herr
    constructor
    · rw [view_file_some it st fn bytes hlook, if_neg (by rw [hext]; decide),
        if_pos hext, herr]
      show ViewResponse.page fn
        (finalizeContent ("[Error reading file: " ++ e ++ "]") []) [] = _
      rw [finalize_error]
    · have hx : dlExtract it (extOf fn) bytes = some (.error e) := by
        unfold dlExtract
        rw [if_neg (by rw [hext]; decide), if_pos hext, herr]
        rfl
      rw [download_text_some it st fn bytes hlook, hx]
  · intro hext herr
    constructor
    · rw [view_file_some it st fn bytes hlook, if_neg (by rw [hext]; decide),
        if_neg (by rw [hext]; decide), if_pos hext, herr]
      show ViewResponse.page fn
        (finalizeContent ("[Error reading file: " ++ e ++ "]") []) [] = _
      rw [finalize_error]
    · have hx : dlExtract it (extOf fn) bytes = some (.error e) := by
        unfold dlExtract
        rw [if_neg (by rw [hext]; decide), if_neg (by rw [hext]; decide),
          if_pos hext, herr]
        rfl
      rw [download_text_some it st fn bytes hlook, hx]
  · intro hext paras hdoc hzip
    rw [view_file_some it st fn bytes hlook, if_neg (by rw [hext]; decide),
      if_neg (by rw [hext]; decide), if_pos hext, hdoc, hzip]
    show ViewResponse.page fn
      (finalizeContent ("[Error reading file: " ++ e ++ "]") []) [] = _
    rw [finalize_error]

theorem extraction_errors_caught_witness :
    (view_file errInterp pdfStorage "f.pdf").2
      = .page "f.pdf" "[Error reading file: boom]" [] ∧
    download_text errInterp pdfStorage "f.pdf"
      = ⟨500, "Error extracting text: boom", none⟩ := by
  have h := (extraction_errors_caught errInterp pdfStorage "f.pdf" "x" "boom"
    (by decide)).1 (by decide) (by rfl)
  constructor
  · rw [h.1]
    decide
  · rw [h.2]
    decide

/-- C10: viewing a DOCX file whose document structure parses successfully
creates the `<filename>_images` folder before the zip scan — even when
the archive holds zero matching media entries, and even when the zip scan
itself raises — and that (empty) folder then appears as an entry of the
home-page listing. -/
theorem view_docx_creates_image_dir (it : Interp) (st : Storage) (fn bytes : String)
    (paras : List String)
    (hlook : lookupFile st fn = some bytes) (hext : extOf fn = "docx")
    (hdoc : it.docxDocOf bytes = .ok paras) :
    (∀ entries, it.docxZipOf bytes = .ok entries →
      (∀ en ∈ entries, isMediaImage en.1 = false) →
      (view_file it st fn).1 = mkdirIfAbsent st (imgDirName fn) ∧
      hasDir (view_file it st fn).1 (imgDirName fn) = true ∧
      imgDirName fn ∈ listing (view_file it st fn).1) ∧
    (∀ e, it.docxZipOf bytes = .error e →
      (view_file it st fn).1 = mkdirIfAbsent st (imgDirName fn) ∧
      hasDir (view_file it st fn).1 (imgDirName fn) = true) := by
  constructor
  · intro entries hzip hnm
    have h1 : (view_file it st fn).1 = mkdirIfAbsent st (imgDirName fn) := by
      rw [view_file_some it st fn bytes hlook, if_neg (by rw [hext]; decide),
        if_neg (by rw [hext]; decide), if_pos hext, hdoc, hzip]
      show (extractImages (mkdirIfAbsent st (imgDirName fn)) fn entries).1 = _
      rw [extractImages_nomatch _ _ _ hnm]
    refine ⟨h1, ?_, ?_⟩
    · rw [h1]
      exact hasDir_mkdirIfAbsent_self st (imgDirName fn)
    · rw [h1]
      exact mem_listing_of_hasDir _ _ (hasDir_mkdirIfAbsent_self st (imgDirName fn))
  · intro e hzip
    have h1 : (view_file it st fn).1 = mkdirIfAbsent st (imgDirName fn) := by
      rw [view_file_some it st fn bytes hlook, if_neg (by rw [hext]; decide),
        if_neg (by rw [hext]; decide), if_pos hext, hdoc, hzip]
    exact ⟨h1, by rw [h1]; exact hasDir_mkdirIfAbsent_self st (imgDirName fn)⟩

theorem view_docx_creates_image_dir_witness :
    (view_file okDocxInterp docxStorage "d.docx").1
      = mkdirIfAbsent docxStorage (imgDirName "d.docx") ∧
    hasDir (view_file okDocxInterp docxStorage "d.docx").1 (imgDirName "d.docx") = true ∧
    imgDirName "d.docx" ∈ listing (view_file okDocxInterp docxStorage "d.docx").1 :=
  (view_docx_creates_image_dir okDocxInterp docxStorage "d.docx" "y" ["hi"]
    (by decide) (by decide) (by rfl)).1 [] (by rfl) (by decide)

theorem takeWhile_nil_of_all_not (p : α → Bool) (l : List α)
    (h : ∀ c ∈ l, p c = false) : l.takeWhile p = [] := by
  cases l with
  | nil => rfl
  | cons c t =>
    rw [List.takeWhile_cons_of_neg]
    simp [h c (by simp)]

theorem dropWhile_self_of_all_not (p : α → Bool) (l : List α)
    (h : ∀ c ∈ l, p c = false) : l.dropWhile p = l := by
  cases l with
  | nil => rfl
  | cons c t =>
    rw [List.dropWhile_cons_of_neg]
    simp [h c (by simp)]

theorem pyStrip_id_of_all_not_ws (s : String) (h : ∀ c ∈ s.data, isPyWs c = false) :
    pyStrip s = s := by
  have hx : pyStripL s.data = s.data := by
    rcases hs : s.data with _ | ⟨c, cs⟩
    · rfl
    · rw [hs] at h
      have hrev : (c :: cs).reverse ≠ [] := by simp
      rcases hr : (c :: cs).reverse with _ | ⟨d, ds⟩
      · exact absurd hr hrev
      · have hc : isPyWs c = false := h c (by simp)
        have hd : isPyWs d = false := by
          apply h d
          rw [← List.mem_reverse, hr]
          simp
        exact pyStripL_id_of_ends (c :: cs) c d cs ds rfl hr hc hd
  show (⟨pyStripL s.data⟩ : String) = s
  rw [hx]

theorem not_nl_of_not_ws (l : List Char) (h : ∀ c ∈ l, isPyWs c = false) :
    ∀ c ∈ l, c ≠ '\n' := by
  intro c hc hcon
  have hx := h c hc
  rw [hcon] at hx
  exact absurd hx (by decide)

/-- C4: the view route post-processes every extracted text (txt, pdf and
docx branches alike) by first trimming and then collapsing blank-line
runs: two arbitrary non-empty single-line paragraph texts with no
leading/trailing whitespace, separated by three consecutive newlines,
render with exactly one blank line between them; an empty post-processed
text with no images is replaced by the fixed placeholder; and the `txt`,
`pdf` and `docx` branches of the route indeed render
`finalizeContent (viewPostProcess ·)` of the extracted text. -/
theorem view_postprocess_collapses :
    (∀ p q : String, p ≠ "" → q ≠ "" →
      pyStrip p = p → pyStrip q = q →
      (∀ c ∈ p.data, c ≠ '\n') → (∀ c ∈ q.data, c ≠ '\n') →
      viewPostProcess (p ++ "\n\n\n" ++ q) = p ++ "\n\n" ++ q) ∧
    finalizeContent "" [] = "[No readable content found.]" ∧
    (∀ it st fn bytes, lookupFile st fn = some bytes → extOf fn = "txt" →
      (view_file it st fn).2 = .page fn (finalizeContent (viewPostProcess bytes) []) []) ∧
    (∀ it st fn bytes pages, lookupFile st fn = some bytes → extOf fn = "pdf" →
      it.pdfOf bytes = .ok pages →
      (view_file it st fn).2
        = .page fn (finalizeContent (viewPostProcess (viewPdfExtract pages)) []) []) ∧
    (∀ it st fn bytes paras entries, lookupFile st fn = some bytes → extOf fn = "docx" →
      it.docxDocOf bytes = .ok paras → it.docxZipOf bytes = .ok entries →
      (view_file it st fn).2
        = .page fn
            (finalizeContent
              (viewPostProcess
                (if pyStrip (viewDocxExtract paras) = "" ∧
                    (extractImages (mkdirIfAbsent st (imgDirName fn)) fn entries).2 = [] then
                  "[This DOCX file appears empty or unsupported.]"
                else viewDocxExtract paras))
              ((extractImages (mkdirIfAbsent st (imgDirName fn)) fn entries).2))
            ((extractImages (mkdirIfAbsent st (imgDirName fn)) fn entries).2)) := by
  refine ⟨?_, by decide, ?_, ?_, ?_⟩
  · intro p q hp hq hsp hsq hnp hnq
    unfold viewPostProcess
    rw [pyStrip_concat p "\n\n\n" q hsp hp hsq hq]
    have hlq : pyStripL q.data = q.data := pyStripL_of_pyStrip_id q hsq
    have hqd : q.data ≠ [] := fun hc => hq (eq_empty_of_data_nil q hc)
    obtain ⟨d, ds, hqc⟩ := List.exists_cons_of_ne_nil hqd
    have hd : isPyWs d = false := head_not_ws_of_pyStrip_id q.data d ds hlq hqc
    have hqtw : q.data.takeWhile isPyWs = [] := by
      rw [hqc, List.takeWhile_cons_of_neg (by simp [hd])]
    have hqdw : q.data.dropWhile isPyWs = q.data := by
      rw [hqc, List.dropWhile_cons_of_neg (by simp [hd])]
    have hdata3 : (p ++ "\n\n\n" ++ q).data = p.data ++ '\n' :: '\n' :: '\n' :: q.data := by
      rw [String.data_append, String.data_append]
      simp [show ("\n\n\n" : String).data = ['\n', '\n', '\n'] from rfl]
    have hdata2 : (p ++ "\n\n" ++ q).data = p.data ++ '\n' :: '\n' :: q.data := by
      rw [String.data_append, String.data_append]
      simp [show ("\n\n" : String).data = ['\n', '\n'] from rfl]
    have hkey : collapseGo (p.data.length + (3 + q.data.length))
        (p.data ++ '\n' :: '\n' :: '\n' :: q.data) = p.data ++ '\n' :: '\n' :: q.data := by
      rw [collapse_copy p.data _ _ hnp (by omega), Nat.add_sub_cancel_left]
      congr 1
      have h3 : 3 + q.data.length = (2 + q.data.length) + 1 := by omega
      rw [h3, collapseGo_succ_cons, if_pos rfl]
      have htw : ('\n' :: '\n' :: q.data).takeWhile isPyWs = ['\n', '\n'] := by
        rw [List.takeWhile_cons_of_pos (by decide), List.takeWhile_cons_of_pos (by decide),
          hqtw]
      rw [htw, show splitLastNl ['\n', '\n'] = some (['\n'], []) from rfl]
      show '\n' :: '\n' ::
          ([] ++ collapseGo (2 + q.data.length) (('\n' :: '\n' :: q.data).dropWhile isPyWs))
        = '\n' :: '\n' :: q.data
      rw [List.dropWhile_cons_of_pos (by decide), List.dropWhile_cons_of_pos (by decide),
        hqdw, collapse_nlfree q.data _ hnq]
      simp
    show (⟨collapseGo (p ++ "\n\n\n" ++ q).data.length (p ++ "\n\n\n" ++ q).data⟩ : String)
      = p ++ "\n\n" ++ q
    rw [hdata3]
    have hlen : (p.data ++ '\n' :: '\n' :: '\n' :: q.data).length
        = p.data.length + (3 + q.data.length) := by
      simp only [List.length_append, List.length_cons]
      omega
    rw [hlen, hkey, ← hdata2]
  · intro it st fn bytes hlook hext
    rw [view_file_some it st fn bytes hlook, if_pos hext]
  · intro it st fn bytes pages hlook hext hpdf
    rw [view_file_some it st fn bytes hlook, if_neg (by rw [hext]; decide),
      if_pos hext, hpdf]
  · intro it st fn bytes paras entries hlook hext hdoc hzip
    rw [view_file_some it st fn bytes hlook, if_neg (by rw [hext]; decide),
      if_neg (by rw [hext]; decide), if_pos hext, hdoc, hzip]

theorem view_postprocess_collapses_witness :
    viewPostProcess ("hello world" ++ "\n\n\n" ++ "bye") = "hello world" ++ "\n\n" ++ "bye" ∧
    (view_file trivialInterp (upload_file emptyStorage "a.txt" "x").1 "a.txt").2
      = .page "a.txt" (finalizeContent (viewPostProcess "x") []) [] ∧
    (view_file okDocxInterp docxStorage "d.docx").2 = .page "d.docx" "hi" [] := by
  refine ⟨?_, ?_, ?_⟩
  · exact view_postprocess_collapses.1 "hello world" "bye" (by decide) (by decide)
      (by decide) (by decide) (by decide) (by decide)
  · exact view_postprocess_collapses.2.2.1 trivialInterp
      (upload_file emptyStorage "a.txt" "x").1 "a.txt" "x" (by decide) (by decide)
  · have h := view_postprocess_collapses.2.2.2.2 okDocxInterp docxStorage "d.docx" "y"
      ["hi"] [] (by decide) (by decide) (by rfl) (by rfl)
    rw [h]
    decide

/-- C7 counterexample: the round trip fails as stated.  The body
`"a\n \nb"` is non-empty, has no leading/trailing whitespace and contains
no run of two or more consecutive blank lines (its lines are `"a"`, `" "`,
`"b"`), yet viewing the uploaded file renders `"a\n\nb"`: the single
whitespace-only blank line is normalised to an empty one. -/
theorem upload_view_roundtrip_cex :
    pyStrip "a\n \nb" = "a\n \nb" ∧
    ("a\n \nb" : String) ≠ "" ∧
    joinSep "\n" ["a", " ", "b"] = "a\n \nb" ∧
    noTwoAdjacentBlank ["a", " ", "b"] = true ∧
    (view_file trivialInterp (upload_file emptyStorage "a.txt" "a\n \nb").1 "a.txt").2
      = .page "a.txt" "a\n\nb" [] ∧
    ("a\n\nb" : String) ≠ "a\n \nb" := by
  refine ⟨by decide, by decide, by decide, by decide, by decide, by decide⟩

/-- C7 amended: the upload-then-view round trip holds once, in addition
to the claim's hypotheses (non-empty body, no leading/trailing
whitespace, no two consecutive blank lines), every whitespace-only line of
the body is required to be empty: uploading such a `.txt` body and
viewing it returns exactly the body.  In particular uploading `a.txt`
with body `"hello"` and viewing it returns `"hello"` (see the witness). -/
theorem upload_view_roundtrip (it : Interp) (st : Storage) (fn : String)
    (ls : List String) (body : String)
    (hext : extOf fn = "txt")
    (hbody : body = joinSep "\n" ls)
    (hln : ∀ ln ∈ ls, ∀ c ∈ ln.data, c ≠ '\n')
    (hblank : ∀ ln ∈ ls, ln.data.all isPyWs = true → ln = "")
    (hadj : noTwoAdjacentBlank ls = true)
    (hstrip : pyStrip body = body)
    (hne : body ≠ "") :
    view_file it (upload_file st fn body).1 fn
      = ((upload_file st fn body).1, .page fn body []) := by
  have hlook : lookupFile (upload_file st fn body).1 fn = some body :=
    lookupFile_writeFile_self st fn body
  rw [view_file_some it _ fn body hlook, if_pos hext]
  have hpost : viewPostProcess body = body := by
    unfold viewPostProcess
    rw [hstrip]
    have hdata : collapseGo body.data.length body.data = body.data := by
      rw [hbody]
      exact collapse_joinLines_id ls.length ls (Nat.le_refl _) hln hblank hadj _
        (Nat.le_refl _)
    show (⟨collapseGo body.data.length body.data⟩ : String) = body
    rw [hdata]
  have hfin : finalizeContent body [] = body := by
    unfold finalizeContent
    rw [if_neg]
    rintro ⟨h1, -⟩
    exact hne (hstrip.symm.trans h1)
  rw [hpost, hfin]

theorem upload_view_roundtrip_witness :
    view_file trivialInterp (upload_file emptyStorage "a.txt" "hello").1 "a.txt"
      = ((upload_file emptyStorage "a.txt" "hello").1, .page "a.txt" "hello" []) :=
  upload_view_roundtrip trivialInterp emptyStorage "a.txt" ["hello"] "hello"
    (by decide) (by decide) (by decide) (by decide) (by decide) (by decide) (by decide)

end FileManager
